import Mathlib

/-!
Verification of the feeling-lucky search query expansion engine
(package jobutil: NewFeelingLuckySearchJob, applyRulesList, applyRules,
unquotePatterns) against its specification.

The query AST, annotation labels, Basic queries, and the external
collaborators (parser capabilities, execution-unit constructors) live in
other packages of the repository; they are modelled from the spec here,
while the four jobutil functions are translated directly from the source.
Go panics are modelled as the error branch of an Except value, since the
Go function signature of NewFeelingLuckySearchJob returns no error.
-/

namespace Jobutil

/-- Modelled from the spec: interpretation labels attached to a pattern
node (the literal/quoted/regexp axis); the query package holding the
label bitfield is not under src. -/
inductive Label where
  | literal
  | quoted
  | regexp
deriving Repr, DecidableEq

/-- Modelled from the spec: a set of labels attached to a Pattern node,
with set/unset/is-set operations as in the external query package. -/
structure Labels where
  literal : Bool := false
  quoted : Bool := false
  regexp : Bool := false
deriving Repr, DecidableEq

def Labels.IsSet (l : Labels) : Label → Bool
  | .literal => l.literal
  | .quoted => l.quoted
  | .regexp => l.regexp

def Labels.Set (l : Labels) : Label → Labels
  | .literal => { l with literal := true }
  | .quoted => { l with quoted := true }
  | .regexp => { l with regexp := true }

def Labels.Unset (l : Labels) : Label → Labels
  | .literal => { l with literal := false }
  | .quoted => { l with quoted := false }
  | .regexp => { l with regexp := false }

/-- Modelled from the spec: the annotation carried by a pattern node. -/
structure Annotation where
  labels : Labels := {}
deriving Repr, DecidableEq

/-- Modelled from the spec: the query node tree — pattern leaves,
operator nodes with ordered children, and parameter (filter) nodes. -/
inductive Node where
  | pattern (value : String) (negated : Bool) ( annotation : Annotation)
  | operator (kind : Nat) (operands : List Node)
  | parameter (field : String) (value : String) (negated : Bool)
deriving Repr

/-- Modelled from the spec: a Basic query, a normalized struct bundling a
pattern tree plus parameter key/value filters, representing one concrete
interpretation of the input. -/
structure Basic where
  pattern : Option Node := none
  parameters : List (String × String) := []
deriving Repr

/-- Modelled from the spec: search-type modes under which the external
parser operates. -/
inductive SearchType where
  | regex
  | literalDefault
  | structural
deriving Repr, DecidableEq

/-- Modelled from the spec: search-wide input parameters, opaque to this
component. -/
structure SearchInputs where
deriving Repr

/-- Modelled from the spec: an execution unit. The composite constructor
wraps an ordered list of children together with the flag permitting later
children to run even after earlier ones produced results. -/
inductive Job where
  | basic (inputs : SearchInputs) (b : Basic)
  | sequential (runPastFirstSuccess : Bool) (children : List Job)
deriving Repr

/-- Modelled from the spec: the external capabilities consumed by this
core — parser (Parse, StringHuman, ToParseTree, Sequence, ToBasicQuery)
and the execution-unit constructor NewBasicJob. They live outside src,
so they are abstract fields; every theorem quantifies over them. -/
structure Env where
  Parse : String → SearchType → Except String (List Node)
  StringHuman : List Node → String
  ToParseTree : Basic → List Node
  Sequence : SearchType → List Node → Except String (List Node)
  ToBasicQuery : List Node → Except String Basic
  NewBasicJob : SearchInputs → Basic → Except String Job

mutual

/-- Modelled from the spec: MapPattern from the external query package —
applies the callback to every pattern node, rebuilding the tree. -/
def mapPattern (f : String → Bool → Annotation → Node) : Node → Node
  | .pattern v n a => f v n a
  | .operator k ts => .operator k (mapPatternList f ts)
  | .parameter fld v n => .parameter fld v n

/-- Modelled from the spec: MapPattern lifted to an ordered list of
sibling nodes, such as the top-level list returned by the parser. -/
def mapPatternList (f : String → Bool → Annotation → Node) : List Node → List Node
  | [] => []
  | t :: ts => mapPattern f t :: mapPatternList f ts

end

mutual

/-- Whether any pattern node of a tree carries the Quoted label; this is
the condition under which the unquote callback records a change. -/
def containsQuotedPattern : Node → Bool
  | .pattern _ _ a => a.labels.IsSet .quoted
  | .operator _ ts => containsQuotedPatternList ts
  | .parameter _ _ _ => false

/-- Whether any pattern node in a list of sibling nodes carries Quoted. -/
def containsQuotedPatternList : List Node → Bool
  | [] => false
  | t :: ts => containsQuotedPattern t || containsQuotedPatternList ts

end

/-- Translation of the source: the callback passed to query.MapPattern
inside unquotePatterns. On a Quoted pattern it unsets Quoted and sets
Literal; otherwise it rebuilds the pattern unchanged. -/
def unquoteCallback (value : String) (negated : Bool) ( annotation : Annotation) : Node :=
  if annotation.labels.IsSet .quoted then
    let annotation := { annotation with labels := ( annotation.labels.Unset .quoted).Set .literal }
    Node.pattern value negated annotation
  else
    Node.pattern value negated annotation

/-- Translation of the source: rule type — a transformation on a Basic
query returning none when the rule does not apply. -/
abbrev rule := Basic → Option Basic

/-- Translation of the source: unquotePatterns. Re-parses the rendered
Basic under regex mode, rewrites Quoted patterns to Literal, and is
inapplicable (none) when re-parse fails, when nothing changed, or when
re-sequencing or flattening fails. The changed flag of the source (a
closure-mutated boolean set exactly when a visited pattern has Quoted)
is expressed as containsQuotedPatternList of the re-parsed tree. -/
def unquotePatterns (env : Env) (b : Basic) : Option Basic :=
  match env.Parse (env.StringHuman (env.ToParseTree b)) SearchType.regex with
  | .error _ => none
  | .ok rawParseTree =>
    let changed := containsQuotedPatternList rawParseTree
    let newParseTree := mapPatternList unquoteCallback rawParseTree
    if !changed then
      none
    else
      match env.Sequence SearchType.literalDefault newParseTree with
      | .error _ => none
      | .ok newNodes =>
        match env.ToBasicQuery newNodes with
        | .error _ => none
        | .ok newBasic => some newBasic

/-- Translation of the source: the fixed global rule-chain set, holding
exactly one chain consisting of the unquote rule. -/
def rulesList (env : Env) : List (List rule) :=
  [[unquotePatterns env]]

/-- Translation of the source: applyRules applies every rule in sequence
to b; if any rule does not apply it returns none. -/
def applyRules (b : Basic) : List rule → Option Basic
  | [] => some b
  | r :: rest =>
    match r b with
    | some next => applyRules next rest
    | none => none

/-- Translation of the source: applyRulesList attempts each chain of the
chain set against b in order, collecting the result of every chain that
fully applied. -/
def applyRulesList (b : Basic) : List (List rule) → List Basic
  | [] => []
  | l :: rest =>
    match applyRules b l with
    | some generated => generated :: applyRulesList b rest
    | none => applyRulesList b rest

/-- Translation of the source: the first loop of NewFeelingLuckySearchJob,
building one child unit per Basic of the plan in order; a construction
failure panics with message TODO (modelled as the error branch). -/
def buildOriginalChildren (env : Env) (inputs : SearchInputs) : List Basic → Except String (List Job)
  | [] => .ok []
  | b :: rest =>
    match env.NewBasicJob inputs b with
    | .error _ => .error "TODO"
    | .ok child =>
      match buildOriginalChildren env inputs rest with
      | .error msg => .error msg
      | .ok children => .ok (child :: children)

/-- Translation of the source: the inner generated-queries loop, building
one child unit per generated Basic in order; a construction failure
panics (modelled as the error branch). -/
def buildGeneratedForBasic (env : Env) (inputs : SearchInputs) : List Basic → Except String (List Job)
  | [] => .ok []
  | g :: rest =>
    match env.NewBasicJob inputs g with
    | .error _ => .error "generated an invalid basic query D:"
    | .ok child =>
      match buildGeneratedForBasic env inputs rest with
      | .error msg => .error msg
      | .ok children => .ok (child :: children)

/-- Translation of the source: the second loop of NewFeelingLuckySearchJob,
running applyRulesList on every Basic of the plan in order and building
units for the generated queries. -/
def buildGeneratedChildren (env : Env) (inputs : SearchInputs) : List Basic → Except String (List Job)
  | [] => .ok []
  | b :: rest =>
    match buildGeneratedForBasic env inputs (applyRulesList b (rulesList env)) with
    | .error msg => .error msg
    | .ok here =>
      match buildGeneratedChildren env inputs rest with
      | .error msg => .error msg
      | .ok there => .ok (here ++ there)

/-- Translation of the source: NewSequentialJob, the composite
constructor consumed from the job package. -/
def NewSequentialJob (runPastFirstSuccess : Bool) (children : List Job) : Job :=
  .sequential runPastFirstSuccess children

/-- Translation of the source: NewFeelingLuckySearchJob — all original
plan units first, then all generated units, wrapped in a sequential
composite with the run-past-first-success flag set to true. The Go
function returns job.Job and panics on construction failure; the Except
error branch models the panic. -/
def NewFeelingLuckySearchJob (env : Env) (inputs : SearchInputs) (plan : List Basic) : Except String Job :=
  match buildOriginalChildren env inputs plan with
  | .error msg => .error msg
  | .ok originals =>
    match buildGeneratedChildren env inputs plan with
    | .error msg => .error msg
    | .ok generated => .ok (NewSequentialJob true (originals ++ generated))

/-- Concrete environment used to instantiate hypotheses of theorems at
evaluable inputs: the parser capabilities succeed trivially and the unit
constructor always succeeds. -/
def testEnv : Env where
  Parse := fun _ _ => .ok []
  StringHuman := fun _ => ""
  ToParseTree := fun _ => []
  Sequence := fun _ ts => .ok ts
  ToBasicQuery := fun _ => .ok {}
  NewBasicJob := fun inputs b => .ok (.basic inputs b)

/-- Concrete rule that never applies. -/
def ruleNone : rule := fun _ => none

/-- Concrete rule that always applies and returns its input. -/
def ruleId : rule := fun b => some b

/-- Concrete environment whose parser always fails to parse. -/
def failParseEnv : Env :=
  { testEnv with Parse := fun _ _ => .error "parse failed" }

/-- Concrete environment whose unit constructor always fails. -/
def failJobEnv : Env :=
  { testEnv with NewBasicJob := fun _ _ => .error "boom" }

mutual

/-- Modelled from the spec (refinement target for the rewrite pass):
every pattern node labeled quoted has Quoted cleared and Literal set,
with value and negated preserved; every other node passes through
unchanged, recursing through operator children. -/
def unquoteRewriteSpec : Node → Node
  | .pattern v n a =>
    if a.labels.quoted then
      .pattern v n { labels := { a.labels with quoted := false, literal := true } }
    else
      .pattern v n a
  | .operator k ts => .operator k (unquoteRewriteSpecList ts)
  | .parameter fld v n => .parameter fld v n

/-- Modelled from the spec: the rewrite pass over a list of sibling
nodes. -/
def unquoteRewriteSpecList : List Node → List Node
  | [] => []
  | t :: ts => unquoteRewriteSpec t :: unquoteRewriteSpecList ts

end

theorem applyRulesList_eq_filterMap (b : Basic) (chainSet : List (List rule)) :
    applyRulesList b chainSet = chainSet.filterMap (fun chain => applyRules b chain) := by
  induction chainSet with
  | nil => rfl
  | cons chain rest ih =>
    cases h : applyRules b chain <;> simp [applyRulesList, List.filterMap_cons, h, ih]

/-- C8: applyRules applied to any Basic query with an empty rule chain
returns that input Basic unchanged (identity base case). -/
theorem applyRules_empty_chain_identity (b : Basic) : applyRules b [] = some b := rfl

/-- C4: applyRulesList attempts each chain independently against the same
input Basic in chain-set order and returns exactly one generated Basic
per fully applying chain (a filterMap of applyRules over the chain set,
preserving order); the output length never exceeds the number of chains,
and the function is total — it returns a plain list, never an error. -/
theorem applyRulesList_per_chain (b : Basic) (chainSet : List (List rule)) :
    applyRulesList b chainSet = chainSet.filterMap (fun chain => applyRules b chain) ∧
    (applyRulesList b chainSet).length ≤ chainSet.length := by
  refine ⟨applyRulesList_eq_filterMap b chainSet, ?_⟩
  rw [applyRulesList_eq_filterMap]
  exact List.length_filterMap_le _ _

/-- C10: a chain set containing an empty chain makes applyRulesList emit
the unchanged input Basic at that chain's position, between the results
of the preceding and following chains. -/
theorem applyRulesList_empty_chain_emits_input (b : Basic) (pre post : List (List rule)) :
    applyRulesList b (pre ++ [] :: post) =
      applyRulesList b pre ++ b :: applyRulesList b post := by
  simp [applyRulesList_eq_filterMap, List.filterMap_append, List.filterMap_cons, applyRules]

/-- C3: applyRules short-circuits — if, after the rules before it have
applied and produced the intermediate Basic, some rule of the chain
returns inapplicable on that intermediate, then the whole chain returns
inapplicable (none), with no partial result and no identity fallback. -/
theorem applyRules_short_circuits (b intermediate : Basic) (pre post : List rule) (r : rule)
    (hpre : applyRules b pre = some intermediate) (hr : r intermediate = none) :
    applyRules b (pre ++ r :: post) = none := by
  induction pre generalizing b with
  | nil =>
    have hb : b = intermediate := by simpa [applyRules] using hpre
    subst hb
    simp [applyRules, hr]
  | cons r0 rest ih =>
    simp only [List.cons_append, applyRules] at hpre ⊢
    cases h : r0 b with
    | none => rw [h] at hpre
    | some next => rw [h] at hpre; exact ih next hpre

theorem applyRules_short_circuits_witness :
    applyRules {} ([] : List rule) = some {} ∧ ruleNone {} = none ∧
    applyRules {} ([] ++ ruleNone :: [ruleId]) = none :=
  ⟨rfl, rfl, applyRules_short_circuits {} {} [] [ruleId] ruleNone rfl rfl⟩

/-- C2: expansion is deterministic — applyRules, applyRulesList and
NewFeelingLuckySearchJob are pure functions of their inputs, so two runs
over equal inputs (same Basic, chain, chain set, environment, search
inputs and plan) produce identical outputs; the embedding uses only
ordered lists, mirroring the Go slices, with no map iteration,
randomness or clock dependence. -/
theorem expansion_deterministic (env₁ env₂ : Env) (inputs₁ inputs₂ : SearchInputs)
    (plan₁ plan₂ : List Basic) (b₁ b₂ : Basic) (chain₁ chain₂ : List rule)
    (chainSet₁ chainSet₂ : List (List rule))
    (henv : env₁ = env₂) (hin : inputs₁ = inputs₂) (hplan : plan₁ = plan₂)
    (hb : b₁ = b₂) (hchain : chain₁ = chain₂) (hset : chainSet₁ = chainSet₂) :
    applyRules b₁ chain₁ = applyRules b₂ chain₂ ∧
    applyRulesList b₁ chainSet₁ = applyRulesList b₂ chainSet₂ ∧
    NewFeelingLuckySearchJob env₁ inputs₁ plan₁ = NewFeelingLuckySearchJob env₂ inputs₂ plan₂ := by
  subst henv hin hplan hb hchain hset
  exact ⟨rfl, rfl, rfl⟩

theorem expansion_deterministic_witness :
    applyRules {} [ruleId] = applyRules {} [ruleId] ∧
    applyRulesList {} [[ruleId]] = applyRulesList {} [[ruleId]] ∧
    NewFeelingLuckySearchJob testEnv {} [{}] = NewFeelingLuckySearchJob testEnv {} [{}] :=
  expansion_deterministic testEnv testEnv {} {} [{}] [{}] {} {} [ruleId] [ruleId]
    [[ruleId]] [[ruleId]] rfl rfl rfl rfl rfl rfl

/-- C5: if the re-parse of the Basic under regex mode yields a tree with
zero patterns labeled Quoted, unquotePatterns is inapplicable (none), so
it contributes no generated query duplicating an existing plan member. -/
theorem unquotePatterns_no_quoted_inapplicable (env : Env) (b : Basic) (tree : List Node)
    (hparse : env.Parse (env.StringHuman (env.ToParseTree b)) SearchType.regex = .ok tree)
    (hq : containsQuotedPatternList tree = false) :
    unquotePatterns env b = none := by
  simp [unquotePatterns, hparse, hq]

theorem unquotePatterns_no_quoted_witness :
    testEnv.Parse (testEnv.StringHuman (testEnv.ToParseTree {})) SearchType.regex =
      .ok ([] : List Node) ∧
    containsQuotedPatternList [] = false ∧
    unquotePatterns testEnv {} = none :=
  ⟨rfl, rfl, unquotePatterns_no_quoted_inapplicable testEnv {} [] rfl rfl⟩

/-- C6: unquotePatterns is total and swallows every internal failure as
inapplicability — a failing re-parse, a failing re-sequencing of the
rewritten tree, or a failing flattening to Basic each yield none, never
a propagated error (the Option return type carries no error branch). -/
theorem unquotePatterns_swallows_failures (env : Env) (b : Basic) :
    (∀ e, env.Parse (env.StringHuman (env.ToParseTree b)) SearchType.regex = .error e →
      unquotePatterns env b = none) ∧
    (∀ tree e,
      env.Parse (env.StringHuman (env.ToParseTree b)) SearchType.regex = .ok tree →
      env.Sequence SearchType.literalDefault (mapPatternList unquoteCallback tree) = .error e →
      unquotePatterns env b = none) ∧
    (∀ tree newNodes e,
      env.Parse (env.StringHuman (env.ToParseTree b)) SearchType.regex = .ok tree →
      env.Sequence SearchType.literalDefault (mapPatternList unquoteCallback tree) = .ok newNodes →
      env.ToBasicQuery newNodes = .error e →
      unquotePatterns env b = none) := by
  refine ⟨?_, ?_, ?_⟩
  · intro e hp
    simp [unquotePatterns, hp]
  · intro tree e hp hs
    by_cases hc : containsQuotedPatternList tree = true
    · simp [unquotePatterns, hp, hc, hs]
    · simp only [Bool.not_eq_true] at hc
      simp [unquotePatterns, hp, hc]
  · intro tree newNodes e hp hs ht
    by_cases hc : containsQuotedPatternList tree = true
    · simp [unquotePatterns, hp, hc, hs, ht]
    · simp only [Bool.not_eq_true] at hc
      simp [unquotePatterns, hp, hc]

theorem unquotePatterns_swallows_failures_witness :
    failParseEnv.Parse (failParseEnv.StringHuman (failParseEnv.ToParseTree {}))
      SearchType.regex = .error "parse failed" ∧
    unquotePatterns failParseEnv {} = none :=
  ⟨rfl, (unquotePatterns_swallows_failures failParseEnv {}).1 "parse failed" rfl⟩

mutual

theorem unquote_rewrite_node_aux :
    ∀ t : Node, mapPattern unquoteCallback t = unquoteRewriteSpec t
  | .pattern v n a => by
    simp only [mapPattern, unquoteCallback, unquoteRewriteSpec, Labels.IsSet]
    cases hq : a.labels.quoted <;> simp [hq, Labels.Set, Labels.Unset]
  | .operator k ts => by
    simp only [mapPattern, unquoteRewriteSpec]
    rw [unquote_rewrite_list_aux ts]
  | .parameter fld v n => rfl

theorem unquote_rewrite_list_aux :
    ∀ ts : List Node, mapPatternList unquoteCallback ts = unquoteRewriteSpecList ts
  | [] => rfl
  | t :: ts => by
    simp only [mapPatternList, unquoteRewriteSpecList]
    rw [unquote_rewrite_node_aux t, unquote_rewrite_list_aux ts]

end

/-- C9: the unquote rewrite pass changes only annotation labels — it
coincides with the spec-side transform that, on every pattern node
labeled Quoted, clears Quoted and sets Literal (keeping the axis
mutually exclusive and preserving the remaining labels), passes every
non-Quoted node through unchanged, and preserves every node's value
string and negated flag. -/
theorem unquote_rewrite_changes_only_labels (ts : List Node) :
    mapPatternList unquoteCallback ts = unquoteRewriteSpecList ts :=
  unquote_rewrite_list_aux ts

theorem buildOriginalChildren_ok (env : Env) (inputs : SearchInputs) (f : Basic → Job)
    (hmk : ∀ b, env.NewBasicJob inputs b = .ok (f b)) :
    ∀ l : List Basic, buildOriginalChildren env inputs l = .ok (l.map f)
  | [] => rfl
  | b :: rest => by
    simp [buildOriginalChildren, hmk b, buildOriginalChildren_ok env inputs f hmk rest]

theorem buildGeneratedForBasic_ok (env : Env) (inputs : SearchInputs) (f : Basic → Job)
    (hmk : ∀ b, env.NewBasicJob inputs b = .ok (f b)) :
    ∀ l : List Basic, buildGeneratedForBasic env inputs l = .ok (l.map f)
  | [] => rfl
  | g :: rest => by
    simp [buildGeneratedForBasic, hmk g, buildGeneratedForBasic_ok env inputs f hmk rest]

theorem buildGeneratedChildren_ok (env : Env) (inputs : SearchInputs) (f : Basic → Job)
    (hmk : ∀ b, env.NewBasicJob inputs b = .ok (f b)) :
    ∀ l : List Basic, buildGeneratedChildren env inputs l =
      .ok (l.flatMap fun b => (applyRulesList b (rulesList env)).map f)
  | [] => rfl
  | b :: rest => by
    simp [buildGeneratedChildren, buildGeneratedForBasic_ok env inputs f hmk,
      buildGeneratedChildren_ok env inputs f hmk rest]

/-- C1: for every non-empty plan whose Basics all construct into units,
NewFeelingLuckySearchJob returns a single sequential composite whose
flag allows later children to run after earlier results, and whose
children are exactly the original plan's units in plan order followed by
one unit per generated Basic — originals processed in plan order, and
within each original the generated Basics in chain-set order. -/
theorem feelingLucky_sequential_order (env : Env) (inputs : SearchInputs) (plan : List Basic)
    (f : Basic → Job) (hne : plan ≠ [])
    (hmk : ∀ b, env.NewBasicJob inputs b = .ok (f b)) :
    NewFeelingLuckySearchJob env inputs plan =
      .ok (Job.sequential true
        (plan.map f ++ plan.flatMap fun b => (applyRulesList b (rulesList env)).map f)) := by
  simp [NewFeelingLuckySearchJob, buildOriginalChildren_ok env inputs f hmk plan,
    buildGeneratedChildren_ok env inputs f hmk plan, NewSequentialJob]

theorem feelingLucky_sequential_order_witness :
    ([({} : Basic)] ≠ ([] : List Basic)) ∧
    (∀ b, testEnv.NewBasicJob {} b = .ok (Job.basic {} b)) ∧
    NewFeelingLuckySearchJob testEnv {} [{}] =
      .ok (Job.sequential true
        ([({} : Basic)].map (Job.basic {}) ++
          [({} : Basic)].flatMap fun b => (applyRulesList b (rulesList testEnv)).map (Job.basic {}))) :=
  ⟨by simp, fun _ => rfl,
   feelingLucky_sequential_order testEnv {} [{}] (Job.basic {}) (by simp) (fun _ => rfl)⟩

theorem buildOriginalChildren_error (env : Env) (inputs : SearchInputs) :
    ∀ l : List Basic, (∃ b ∈ l, ∃ e, env.NewBasicJob inputs b = .error e) →
    ∃ msg, buildOriginalChildren env inputs l = .error msg
  | [], h => absurd h (by simp)
  | b :: rest, h => by
    cases hb : env.NewBasicJob inputs b with
    | error e => exact ⟨"TODO", by simp [buildOriginalChildren, hb]⟩
    | ok child =>
      have hrest : ∃ b' ∈ rest, ∃ e, env.NewBasicJob inputs b' = .error e := by
        obtain ⟨b', hmem, e, he⟩ := h
        rcases List.mem_cons.mp hmem with rfl | hmem'
        · rw [hb] at he; cases he
        · exact ⟨b', hmem', e, he⟩
      obtain ⟨msg, hmsg⟩ := buildOriginalChildren_error env inputs rest hrest
      exact ⟨msg, by simp [buildOriginalChildren, hb, hmsg]⟩

theorem buildGeneratedForBasic_error (env : Env) (inputs : SearchInputs) :
    ∀ l : List Basic, (∃ g ∈ l, ∃ e, env.NewBasicJob inputs g = .error e) →
    ∃ msg, buildGeneratedForBasic env inputs l = .error msg
  | [], h => absurd h (by simp)
  | g :: rest, h => by
    cases hg : env.NewBasicJob inputs g with
    | error e => exact ⟨"generated an invalid basic query D:", by simp [buildGeneratedForBasic, hg]⟩
    | ok child =>
      have hrest : ∃ g' ∈ rest, ∃ e, env.NewBasicJob inputs g' = .error e := by
        obtain ⟨g', hmem, e, he⟩ := h
        rcases List.mem_cons.mp hmem with rfl | hmem'
        · rw [hg] at he; cases he
        · exact ⟨g', hmem', e, he⟩
      obtain ⟨msg, hmsg⟩ := buildGeneratedForBasic_error env inputs rest hrest
      exact ⟨msg, by simp [buildGeneratedForBasic, hg, hmsg]⟩

theorem buildGeneratedChildren_error (env : Env) (inputs : SearchInputs) :
    ∀ l : List Basic,
      (∃ b ∈ l, ∃ g ∈ applyRulesList b (rulesList env), ∃ e,
        env.NewBasicJob inputs g = .error e) →
    ∃ msg, buildGeneratedChildren env inputs l = .error msg
  | [], h => absurd h (by simp)
  | b :: rest, h => by
    cases hfor : buildGeneratedForBasic env inputs (applyRulesList b (rulesList env)) with
    | error msg => exact ⟨msg, by simp [buildGeneratedChildren, hfor]⟩
    | ok here =>
      have hrest : ∃ b' ∈ rest, ∃ g ∈ applyRulesList b' (rulesList env), ∃ e,
          env.NewBasicJob inputs g = .error e := by
        obtain ⟨b', hmem, g, hg, e, he⟩ := h
        rcases List.mem_cons.mp hmem with rfl | hmem'
        · obtain ⟨m, hm⟩ := buildGeneratedForBasic_error env inputs _ ⟨g, hg, e, he⟩
          rw [hfor] at hm; cases hm
        · exact ⟨b', hmem', g, hg, e, he⟩
      obtain ⟨msg, hmsg⟩ := buildGeneratedChildren_error env inputs rest hrest
      exact ⟨msg, by simp [buildGeneratedChildren, hfor, hmsg]⟩

/-- C7: a failure to construct a unit from a Basic — whether one of the
original plan members or one of the rule-generated Basics — makes
NewFeelingLuckySearchJob end in the panic branch (the Go signature has
no error return), never a normal result and never a silent skip. -/
theorem feelingLucky_construction_failure_panics (env : Env) (inputs : SearchInputs)
    (plan : List Basic)
    (h : (∃ b ∈ plan, ∃ e, env.NewBasicJob inputs b = .error e) ∨
         (∃ b ∈ plan, ∃ g ∈ applyRulesList b (rulesList env), ∃ e,
           env.NewBasicJob inputs g = .error e)) :
    ∃ msg, NewFeelingLuckySearchJob env inputs plan = .error msg := by
  rcases h with h1 | h2
  · obtain ⟨msg, hm⟩ := buildOriginalChildren_error env inputs plan h1
    exact ⟨msg, by simp [NewFeelingLuckySearchJob, hm]⟩
  · cases horig : buildOriginalChildren env inputs plan with
    | error msg => exact ⟨msg, by simp [NewFeelingLuckySearchJob, horig]⟩
    | ok originals =>
      obtain ⟨msg, hm⟩ := buildGeneratedChildren_error env inputs plan h2
      exact ⟨msg, by simp [NewFeelingLuckySearchJob, horig, hm]⟩

theorem feelingLucky_construction_failure_witness :
    (∃ b ∈ [({} : Basic)], ∃ e, failJobEnv.NewBasicJob {} b = .error e) ∧
    ∃ msg, NewFeelingLuckySearchJob failJobEnv {} [{}] = .error msg :=
  ⟨⟨{}, by simp, "boom", rfl⟩,
   feelingLucky_construction_failure_panics failJobEnv {} [{}]
     (Or.inl ⟨{}, by simp, "boom", rfl⟩)⟩

end Jobutil
